import Mathlib

/-!
Shallow embedding of `recent_projects.py` from the alfred-jetbrains-projects
repository, together with theorems settling the frozen claims about it.

Conventions of the embedding:
* Python strings are Lean `String`s; the substring test `needle in hay`
  becomes `strContains hay needle` (contiguous-sublist search).
* Filesystem and process effects are passed in explicitly through an `Env`
  record (directory listing, file contents, `.idea/.name` lookups, the
  `pgrep` invocation's outcome).
* Python exceptions become `Option`/`Except` results: exceptions that
  `list_options_in_alfred` catches (`ValueError`, `FileNotFoundError`) are
  distinguished constructors; every uncaught exception kind is collapsed
  into `PyErr.other` (the process crashes without producing output).
-/

namespace RecentProjects

/-- Contiguous substring search (via `List.isPrefixOf` at each suffix) on char lists,
modelling Python's `needle in hay` for strings. -/
def hasSub (needle : List Char) : List Char → Bool
  | [] => needle.isEmpty
  | c :: rest => needle.isPrefixOf (c :: rest) || hasSub needle rest

/-- Python's `needle in hay` substring test for strings. -/
def strContains (hay needle : String) : Bool :=
  hasSub needle.toList hay.toList

/-- Python's `str.lower()` (character-wise lowering; the histories and
queries of this program are ASCII). -/
def strLower (s : String) : String :=
  ⟨s.toList.map Char.toLower⟩

/-- Python's `s.split(sep)` for a one-character separator, on char lists:
`[]` input yields one empty field, and every separator occurrence starts a
new field. -/
def splitOnChar (sep : Char) : List Char → List (List Char)
  | [] => [[]]
  | c :: rest =>
    if c = sep then [] :: splitOnChar sep rest
    else
      match splitOnChar sep rest with
      | s :: ss => (c :: s) :: ss
      | [] => [[c]]

/-- The constant `BREAK_CHARACTERS = ["_", "-"]` from the source. -/
def BREAK_CHARACTERS : List Char := ['_', '-']

/-- The loop body of `Project.abbreviate`: scan the characters after the
first one, tracking the `previous_was_break` flag; a non-break character is
emitted exactly when the flag is set. -/
def abbreviateChars (prev : Bool) : List Char → List Char
  | [] => []
  | c :: cs =>
    if c ∈ BREAK_CHARACTERS then abbreviateChars true cs
    else if prev then c :: abbreviateChars false cs
    else abbreviateChars false cs

/-- Function `Project.abbreviate` from the source: the first character of the name
followed by the characters the scan emits.  Python raises `IndexError` on an
empty name (`self.name[0]`), modelled by `none`. -/
def abbreviate (name : String) : Option String :=
  match name.toList with
  | [] => none
  | c :: cs => some ⟨c :: abbreviateChars false cs⟩

/-- Modelled from the spec wording for the abbreviation (refinement side):
the characters of a list that are not break characters and immediately
follow a break character — i.e. the first character after each maximal run
of break characters. -/
def followsBreak : List Char → List Char
  | a :: b :: rest =>
    (if a ∈ BREAK_CHARACTERS ∧ b ∉ BREAK_CHARACTERS then [b] else []) ++ followsBreak (b :: rest)
  | _ => []

/-- Modelled from the spec wording: the abbreviation is the name's first
character plus, for each maximal run of break characters in the rest of the
name, the first character after that run. -/
def specAbbrev (name : String) : String :=
  match name.toList with
  | [] => ""
  | c :: cs => ⟨c :: followsBreak cs⟩

/-- The `Project` value object (path, display name, derived abbreviation). -/
structure Project where
  path : String
  name : String
  abbreviation : String
deriving DecidableEq, Repr

/-- Method `Project.matches_query`: the query (as given) must occur in the
lower-cased path, abbreviation or name. -/
def Project.matches_query (p : Project) (query : String) : Bool :=
  strContains (strLower p.path) query || strContains (strLower p.abbreviation) query ||
    strContains (strLower p.name) query

/-- Method `Project.sort_on_match_type`: rank 0 on exact (case-sensitive)
abbreviation match, 1 when the query occurs (case-sensitively) in the name,
2 otherwise. -/
def Project.sort_on_match_type (p : Project) (query : String) : Nat :=
  if query = p.abbreviation then 0
  else if strContains p.name query then 1
  else 2

/-- Stable insertion of `x` into a list already sorted by `key`: `x` goes
before the first element with a key not below its own, so earlier input
elements with equal keys stay in front. -/
def orderedInsertKey (key : α → Nat) (x : α) : List α → List α
  | [] => [x]
  | y :: ys => if key x ≤ key y then x :: y :: ys else y :: orderedInsertKey key x ys

/-- Stable ascending sort by a numeric key, modelling Python's stable
`list.sort(key=...)`. -/
def sortByKey (key : α → Nat) : List α → List α
  | [] => []
  | x :: xs => orderedInsertKey key x (sortByKey key xs)

/-- Function `filter_and_sort_projects` from the source: empty query returns the
input unchanged; otherwise filter by `matches_query` and stable-sort by
`sort_on_match_type`. -/
def filter_and_sort_projects (query : String) (projects : List Project) : List Project :=
  if query.length < 1 then projects
  else sortByKey (fun p => p.sort_on_match_type query)
    (projects.filter (fun p => p.matches_query query))

/-- The `Product` configuration record (dataclass from the source). -/
structure Product where
  keyword : String
  uid : String
  folder_name : String
  bundle_id : String
  display_name : Option String
  preferences_path : String
deriving DecidableEq, Repr

/-- Property `Product.name`: the display name when present, else the folder name. -/
def Product.name (p : Product) : String :=
  match p.display_name with
  | some d => d
  | none => p.folder_name

/-- Function `should_ignore_folder`: `"backup" in folder_name`. -/
def should_ignore_folder (folder_name : String) : Bool :=
  strContains folder_name "backup"

/-- Function `find_preferences_folders`: the immediate subdirectory names (supplied
here as the listing `subdirs` that `next(os.walk(...))[1]` returns) that
contain the product's folder-name token and are not ignored. -/
def find_preferences_folders (subdirs : List String) (application : Product) : List String :=
  subdirs.filter (fun folder_name =>
    strContains folder_name application.folder_name && !(should_ignore_folder folder_name))

/-- Lexicographic strict comparison of char lists by code point, with a
proper prefix below its extensions — Python's `str` comparison. -/
def listStrLt : List Char → List Char → Bool
  | [], [] => false
  | [], _ :: _ => true
  | _ :: _, [] => false
  | a :: as, b :: bs =>
    if a.toNat < b.toNat then true
    else if b.toNat < a.toNat then false
    else listStrLt as bs

/-- Python's `a < b` on strings. -/
def pyLt (a b : String) : Bool :=
  listStrLt a.toList b.toList

/-- Python's `max` over a list: `none` on the empty list (a `ValueError`),
otherwise the fold keeping the current element unless a strictly greater
one appears. -/
def pyMax (l : List String) : Option String :=
  match l with
  | [] => none
  | x :: xs => some (xs.foldl (fun acc y => if pyLt acc y then y else acc) x)

/-- Function `find_recentprojects_file`: select the maximal matching preference
folder under the (already home-expanded) preferences root and build
`<root><folder>/options/recentProjects.xml`.  `none` models the
`ValueError` that `max` raises when no folder matches. -/
def find_recentprojects_file (preferences_path : String) (subdirs : List String)
    (application : Product) : Option String :=
  (pyMax (find_preferences_folders subdirs application)).map
    (fun most_recent_preferences =>
      preferences_path ++ most_recent_preferences ++ "/options/" ++ "recentProjects" ++ ".xml")

/-- An XML element: tag, attributes, child elements (text content is
irrelevant to the program and omitted). -/
inductive Xml where
  | elem (tag : String) (attrs : List (String × String)) (children : List Xml)

/-- The tag of an element. -/
def Xml.tag : Xml → String
  | .elem t _ _ => t

/-- The attribute list of an element. -/
def Xml.attrs : Xml → List (String × String)
  | .elem _ a _ => a

/-- The child elements of an element. -/
def Xml.children : Xml → List Xml
  | .elem _ _ c => c

/-- Attribute lookup (`t.attrib[k]`; a missing key is Python's
`KeyError`, modelled by `none`). -/
def Xml.attr (x : Xml) (k : String) : Option String :=
  (x.attrs.find? (fun kv => kv.1 = k)).map (fun kv => kv.2)

mutual

/-- All proper descendants of an element in document (preorder) order,
modelling the `.//` axis of `ElementTree.findall`. -/
def Xml.descendants : Xml → List Xml
  | .elem _ _ cs => descendantsList cs

/-- Descendants-or-self of each element of a list, in order. -/
def descendantsList : List Xml → List Xml
  | [] => []
  | c :: cs => c :: Xml.descendants c ++ descendantsList cs

end

/-- The fixed `findall` query
`.//component[@name='RecentProjectsManager']/option[@name='additionalInfo']/map/entry`:
walk matching `component` descendants, then matching `option`, `map` and
`entry` children, in document order. -/
def findEntries (root : Xml) : List Xml :=
  ((((root.descendants.filter (fun e =>
      e.tag = "component" && e.attr "name" = some "RecentProjectsManager")).flatMap
    (fun comp => comp.children.filter (fun o =>
      o.tag = "option" && o.attr "name" = some "additionalInfo"))).flatMap
    (fun opt => opt.children.filter (fun m => m.tag = "map"))).flatMap
    (fun m => m.children.filter (fun e => e.tag = "entry")))

/-- Python's `s.replace("$USER_HOME$", "~")` on the character list: left-to-right
and non-overlapping, with the fixed eleven-character pattern spelled out so
that a hit consumes it whole and scanning resumes after it. -/
def replaceUserHomeChars : List Char → List Char
  | '$' :: 'U' :: 'S' :: 'E' :: 'R' :: '_' :: 'H' :: 'O' :: 'M' :: 'E' :: '$' :: rest =>
    '~' :: replaceUserHomeChars rest
  | c :: rest => c :: replaceUserHomeChars rest
  | [] => []

/-- Replace every occurrence of `$USER_HOME$` by `~` in a string. -/
def replaceUserHome (s : String) : String :=
  ⟨replaceUserHomeChars s.toList⟩

/-- Function `read_projects_from_file` on an already-parsed document: the `key`
attributes of the matched entries, `$USER_HOME$` replaced by `~`, in
reverse document order (`reversed(projects)`).  `none` models the
`KeyError` on an entry without a `key` attribute. -/
def read_projects_from_file (doc : Xml) : Option (List String) :=
  ((findEntries doc).mapM (fun (t : Xml) => t.attr "key")).map
    (fun ks => (ks.map replaceUserHome).reverse)

/-- The outcome of the `pgrep` subprocess: its exit code and captured
standard output.  `pgrep -i -f` exits 0 when the case-insensitive query
matched at least one process, 1 when it matched none, and 2 or 3 on its own
error conditions. -/
structure PgrepResult where
  exitCode : Nat
  output : String
deriving DecidableEq, Repr

/-- Model of `subprocess.check_output`: the captured output on exit status 0, and a
`CalledProcessError` carrying the status otherwise. -/
def check_output (r : PgrepResult) : Except Nat String :=
  if r.exitCode = 0 then .ok r.output else .error r.exitCode

/-- Function `is_process_running`: `True` when `check_output` succeeds, `False` on
any `CalledProcessError`. -/
def is_process_running (r : PgrepResult) : Bool :=
  match check_output r with
  | .ok _ => true
  | .error _ => false

/-- A JSON-able variable value as used in the item/output `variables`
dictionaries (`{"app_keyword": str}`, `{"remove_from_list": True}`). -/
inductive PyVal where
  | str (s : String)
  | bool (b : Bool)
deriving DecidableEq, Repr

/-- Class `AlfredMod` (a secondary action): argument, subtitle, valid flag. -/
structure AlfredMod where
  arg : String
  subtitle : String
  valid : Bool
deriving DecidableEq, Repr

/-- Class `AlfredItem` with the fields `__init__` sets; `variables` is present
only when `vars` was passed and `mods` starts empty (absent). -/
structure AlfredItem where
  title : String
  subtitle : String
  arg : String
  type : String
  autocomplete : String
  valid : Bool
  vars : Option (List (String × PyVal))
  mods : List (String × AlfredMod)
deriving DecidableEq, Repr

/-- Constructor `AlfredItem.__init__(title, subtitle, arg, valid=True, vars=None,
autocomplete=None, alfred_type="file")`: the autocomplete field defaults to
the subtitle wrapped in pipe characters. -/
def AlfredItem.init (title subtitle arg : String) (valid : Bool)
    (vars : Option (List (String × PyVal))) (autocomplete : Option String)
    (alfred_type : String) : AlfredItem :=
  { title := title
    subtitle := subtitle
    arg := arg
    type := alfred_type
    autocomplete := autocomplete.getD ("|" ++ subtitle ++ "|")
    valid := valid
    vars := vars
    mods := [] }

/-- Python dict assignment `d[k] = v` on an association list: replace the
existing binding or append a new one. -/
def updateAssoc (m : List (String × AlfredMod)) (k : String) (v : AlfredMod) :
    List (String × AlfredMod) :=
  if m.any (fun kv => kv.1 = k) then
    m.map (fun kv => if kv.1 = k then (k, v) else kv)
  else m ++ [(k, v)]

/-- Method `AlfredItem.add_mod`. -/
def AlfredItem.add_mod (item : AlfredItem) (key_combination : String)
    (action : AlfredMod) : AlfredItem :=
  { item with mods := updateAssoc item.mods key_combination action }

/-- Class `AlfredOutput`: optional top-level variables plus the item list. -/
structure AlfredOutput where
  vars : Option (List (String × PyVal))
  items : List AlfredItem
deriving DecidableEq, Repr

/-- What the filesystem holds at the resolved history-file path. -/
inductive FileResult where
  | missing
  | malformed
  | parsed (doc : Xml)

/-- The effectful context of one invocation: `os.path.expanduser`, the
listing of the preferences root, the filesystem content at the history-file
path, the `.idea/.name` lookup (`none` = not a file), and the outcome of
the `pgrep` call made with the product keyword. -/
structure Env where
  expand : String → String
  subdirs : List String
  file : String → FileResult
  nameFile : String → Option String
  pgrep : PgrepResult

/-- The exception kinds relevant to `list_options_in_alfred`: the two it
catches, and `other` for every uncaught kind (`ParseError`, `KeyError`,
`IndexError`), which crashes the process with no output. -/
inductive PyErr where
  | valueError
  | fileNotFound
  | other
deriving DecidableEq, Repr

/-- Constructor `Project.__init__`: read `<expanded path>/.idea/.name` when it exists,
else use the last `/`-separated path segment; then derive the abbreviation
(`none` models the `IndexError` on an empty name). -/
def mkProject (env : Env) (path : String) : Option Project :=
  let name :=
    match env.nameFile (env.expand path ++ "/.idea/.name") with
    | some contents => contents
    | none => String.mk ((splitOnChar '/' path.toList).getLastD [])
  (abbreviate name).map (fun ab => { path := path, name := name, abbreviation := ab })

/-- Function `get_projects` (minus the catalog lookup, whose failure exits before
any output): locate the history file, read it, build the `Project`s. -/
def get_projects (env : Env) (app : Product) : Except PyErr (List Project) :=
  match find_recentprojects_file (env.expand app.preferences_path) env.subdirs app with
  | none => .error .valueError
  | some path =>
    match env.file path with
    | .missing => .error .fileNotFound
    | .malformed => .error .other
    | .parsed doc =>
      match read_projects_from_file doc with
      | none => .error .other
      | some paths =>
        match paths.mapM (mkProject env) with
        | none => .error .other
        | some projects => .ok projects

/-- The content matched by Python's `re.findall(r'\|(.+?)\|', query)[0]`:
scanning for a closing pipe after an opening one, with at least one
character in between (the content may itself contain pipes). -/
def findClose : List Char → Option (List Char)
  | [] => none
  | c :: rest => if c = '|' then some [] else (findClose rest).map (fun t => c :: t)

/-- One match attempt at an opening pipe: the first character after it is
always content (the lazy `.+?` needs at least one), then scan for the
closing pipe. -/
def closeToken : List Char → Option (List Char)
  | [] => none
  | c :: rest => (findClose rest).map (fun t => c :: t)

/-- The first (leftmost, then shortest) group matched by
`re.findall(r'\|(.+?)\|', query)`, or `none` when the regex has no match. -/
def firstPipeToken : List Char → Option (List Char)
  | [] => none
  | c :: rest =>
    if c = '|' then
      match closeToken rest with
      | some t => some t
      | none => firstPipeToken rest
    else firstPipeToken rest

/-- Function `manage_entry`: the management submenu for one project.  When the
product's process is running it shows a disabled quit-first warning plus
the open item; otherwise remove, delete, open and a back item.  Every item
gets an `alt` mod telling the user how to return. -/
def manage_entry (env : Env) (project : Project) (app : Product) : AlfredOutput :=
  let open_item := AlfredItem.init ("Open " ++ project.name ++ " in " ++ app.name)
    "Open this project in the IDE" project.path true none (some "") "file"
  let items :=
    if is_process_running env.pgrep then
      [AlfredItem.init ("⚠️ Quit " ++ app.name ++ " to see all options")
        "Action this item to go back to main list" "" false none (some "") "file",
       open_item]
    else
      [AlfredItem.init ("Remove " ++ project.name ++ " from list")
        "The project will remain on your drive" project.path true
        (some [("remove_from_list", PyVal.bool true)]) (some "") "file",
       AlfredItem.init ("🛑Delete " ++ project.name ++ " from disk")
        "The project will be moved to the trash and removed from the list" project.path true
        (some [("delete_from_disk", PyVal.bool true)]) (some "") "file",
       open_item,
       AlfredItem.init "⬅︎ Go back" "Action this item to go back to main list" ""
        false none (some "") "file"]
  let items := items.map (fun item =>
    item.add_mod "alt" (AlfredMod.mk "" "Press ⇥ (tab) to return to main list" false))
  { vars := some [("app_keyword", PyVal.str app.keyword)], items := items }

/-- Function `list_options_in_alfred`.  The `try` block covers `get_projects`, the
pipe-token submenu dispatch and the ordinary listing; `ValueError` and
`FileNotFoundError` are converted into single-item backup outputs, every
other exception propagates (`.error`, no output). -/
def list_options_in_alfred (env : Env) (app : Product) (query : String) :
    Except PyErr AlfredOutput :=
  match get_projects env app with
  | .error .valueError =>
    .ok { vars := some [("app_keyword", PyVal.str app.keyword)]
          items := [AlfredItem.init ("Open " ++ app.keyword)
            ("This is a backup option since no preferences were found for " ++ app.keyword)
            "" true none (some "") "file"] }
  | .error .fileNotFound =>
    .ok { vars := some [("app_keyword", PyVal.str app.keyword)]
          items := [AlfredItem.init ("Open " ++ app.keyword)
            ("This is a backup option since the projects file was not found for " ++ app.keyword)
            "" true none (some "") "file"] }
  | .error e => .error e
  | .ok projects =>
    match firstPipeToken query.toList with
    | some t =>
      match projects.filter (fun p => p.path = String.mk t) with
      | [] => .error .other
      | project :: _ => .ok (manage_entry env project app)
    | none =>
      let sorted := filter_and_sort_projects query projects
      let items := sorted.map (fun p =>
        (AlfredItem.init p.name p.path p.path true none none "file").add_mod "alt"
          (AlfredMod.mk "" "Press ⇥ (tab) to manage item" false))
      .ok { vars := some [("app_keyword", PyVal.str app.keyword)], items := items }

/-- Function `remove_project`: the body only writes the target path to standard
output (the removal is an unimplemented TODO in the source); the process
then terminates normally, i.e. with exit status 0. -/
def remove_project (app_keyword file : String) : String × Nat :=
  (file, 0)

/-- An `entry` element of the history file carrying a `key` attribute. -/
def mkEntry (key : String) : Xml :=
  .elem "entry" [("key", key)] []

/-- A well-formed history document in the format `read_projects_from_file`
consumes (as exercised by the repository's own test data): the nested
`component[@name='RecentProjectsManager']/option[@name='additionalInfo']/map`
chain holding one `entry` per stored key, oldest first. -/
def mkHistoryDoc (keys : List String) : Xml :=
  .elem "application" []
    [.elem "component" [("name", "RecentProjectsManager")]
      [.elem "option" [("name", "additionalInfo")]
        [.elem "map" [] (keys.map mkEntry)]]]

/-- A sample configured product (GoLand) with an empty preferences root so
that resolved paths stay short. -/
def appGo : Product :=
  { keyword := "goland"
    uid := "uid1"
    folder_name := "GoLand"
    bundle_id := "com.jetbrains.goland"
    display_name := none
    preferences_path := "" }

/-- A sample parsed history document holding one project. -/
def docOne : Xml := mkHistoryDoc ["$USER_HOME$/proj"]

/-- The project that `docOne` yields under `envOne`. -/
def projOne : Project :=
  { path := "~/proj", name := "proj", abbreviation := "p" }

/-- Environment with one matching preference folder whose history file
parses to `docOne`, no `.idea/.name` files, and `pgrep` reporting no match
(exit status 1: the product is not running). -/
def envOne : Env :=
  { expand := fun s => s
    subdirs := ["GoLand2020.2"]
    file := fun p => if p = "GoLand2020.2/options/recentProjects.xml"
      then .parsed docOne else .missing
    nameFile := fun _ => none
    pgrep := { exitCode := 1, output := "" } }

/-- Environment with no preference folders at all (the `ValueError` path of
`find_recentprojects_file`). -/
def envNone : Env :=
  { expand := fun s => s
    subdirs := []
    file := fun _ => .missing
    nameFile := fun _ => none
    pgrep := { exitCode := 1, output := "" } }

/-- Environment where the preference folder exists but the resolved
`recentProjects.xml` is absent (the `FileNotFoundError` path). -/
def envMissing : Env :=
  { expand := fun s => s
    subdirs := ["GoLand2020.2"]
    file := fun _ => .missing
    nameFile := fun _ => none
    pgrep := { exitCode := 1, output := "" } }

/-! ## Theorems -/

theorem followsBreak_cons_of_not_break {c : Char} {rest : List Char}
    (hc : c ∉ BREAK_CHARACTERS) : followsBreak (c :: rest) = followsBreak rest := by
  cases rest with
  | nil => rfl
  | cons b rest =>
    simp only [followsBreak]
    rw [if_neg]
    · simp
    · intro h
      exact hc h.1

theorem followsBreak_cons_break {c d : Char} {rest : List Char}
    (hc : c ∈ BREAK_CHARACTERS) (hd : d ∈ BREAK_CHARACTERS) :
    followsBreak (c :: rest) = followsBreak (d :: rest) := by
  cases rest with
  | nil => rfl
  | cons b rest =>
    simp only [followsBreak]
    by_cases hb : b ∈ BREAK_CHARACTERS
    · rw [if_neg (fun h => h.2 hb), if_neg (fun h => h.2 hb)]
    · rw [if_pos ⟨hc, hb⟩, if_pos ⟨hd, hb⟩]

theorem abbreviateChars_eq_followsBreak (cs : List Char) :
    abbreviateChars false cs = followsBreak cs ∧
      ∀ c ∈ BREAK_CHARACTERS, abbreviateChars true cs = followsBreak (c :: cs) := by
  induction cs with
  | nil =>
    exact ⟨rfl, fun c _ => rfl⟩
  | cons x rest ih =>
    obtain ⟨ih1, ih2⟩ := ih
    by_cases hx : x ∈ BREAK_CHARACTERS
    · constructor
      · rw [abbreviateChars, if_pos hx]
        exact ih2 x hx
      · intro c hc
        rw [abbreviateChars, if_pos hx, followsBreak, if_neg (fun h => h.2 hx)]
        simpa using ih2 x hx
    · constructor
      · rw [abbreviateChars, if_neg hx, if_neg (by simp), ih1,
          followsBreak_cons_of_not_break hx]
      · intro c hc
        rw [abbreviateChars, if_neg hx, if_pos rfl, followsBreak, if_pos ⟨hc, hx⟩, ih1,
          followsBreak_cons_of_not_break hx]
        simp

/-- Claim C6: For every non-empty name, `Project.abbreviate` computes exactly
the spec-side abbreviation: the name's first character followed by, for each
maximal run of break characters (underscore, hyphen) in the rest of the
name, the first character after that run.  (`specAbbrev` renders that
description as "the non-break characters immediately preceded by a break
character".) -/
theorem abbreviate_refines_specAbbrev (name : String) (h : name ≠ "") :
    abbreviate name = some (specAbbrev name) := by
  match hn : name.toList with
  | [] =>
    exact absurd (String.ext hn) h
  | c :: cs =>
    simp only [abbreviate, specAbbrev, hn, (abbreviateChars_eq_followsBreak cs).1]

/-- Witness for C6, covering the spec's concrete examples:
`"My-Cool_Project" → "MCP"`, `"simple" → "s"`, `"a-b-c" → "abc"`. -/
theorem abbreviate_refines_specAbbrev_witness :
    ("My-Cool_Project" ≠ "" ∧
      abbreviate "My-Cool_Project" = some (specAbbrev "My-Cool_Project")) ∧
    specAbbrev "My-Cool_Project" = "MCP" ∧
    abbreviate "simple" = some "s" ∧
    abbreviate "a-b-c" = some "abc" :=
  ⟨⟨by decide, abbreviate_refines_specAbbrev "My-Cool_Project" (by decide)⟩,
    by decide, by decide, by decide⟩

theorem orderedInsertKey_perm (key : α → Nat) (x : α) (l : List α) :
    (orderedInsertKey key x l).Perm (x :: l) := by
  induction l with
  | nil => exact List.Perm.refl _
  | cons y ys ih =>
    rw [orderedInsertKey]
    by_cases h : key x ≤ key y
    · rw [if_pos h]
    · rw [if_neg h]
      exact (ih.cons y).trans (List.Perm.swap x y ys)

theorem sortByKey_perm (key : α → Nat) (l : List α) : (sortByKey key l).Perm l := by
  induction l with
  | nil => exact List.Perm.refl _
  | cons x xs ih =>
    exact (orderedInsertKey_perm key x (sortByKey key xs)).trans (ih.cons x)

theorem string_eq_empty_of_length_lt_one {q : String} (h : q.length < 1) : q = "" := by
  refine String.ext (List.length_eq_zero.mp ?_)
  exact Nat.lt_one_iff.mp h

/-- Claim C3 counterexample: with the query `"A"` and a single project whose
path, name and abbreviation are all lower-case `a`, the lower-cased query
*would* be a substring of the lower-cased path (second conjunct), yet the
code keeps nothing: the source compares the query verbatim, so the claim's
"lower-cased query" reading is false on the code. -/
theorem filter_query_not_lowered_counterexample :
    filter_and_sort_projects "A" [{ path := "~/a", name := "a", abbreviation := "a" }] = [] ∧
    strContains (strLower "~/a") (strLower "A") = true := by
  constructor
  · decide
  · decide

/-- Claim C3 (amended): an empty query returns the input unchanged; a
non-empty query keeps exactly (as a multiset) those records for which the
query *as typed* — not lower-cased — is a substring of the lower-cased
path, or of the lower-cased abbreviation, or of the lower-cased name. -/
theorem filter_and_sort_keeps_matches (q : String) (ps : List Project) :
    (q = "" → filter_and_sort_projects q ps = ps) ∧
    (q ≠ "" → (filter_and_sort_projects q ps).Perm (ps.filter (fun p =>
      strContains (strLower p.path) q || strContains (strLower p.abbreviation) q ||
        strContains (strLower p.name) q))) := by
  constructor
  · intro hq
    subst hq
    rfl
  · intro hq
    rw [filter_and_sort_projects,
      if_neg (fun hlt => hq (string_eq_empty_of_length_lt_one hlt))]
    simp only [Project.matches_query]
    exact sortByKey_perm _ _

/-- Witness for C3 (amended), at the query `"petclinic"` and the two
projects of the repository's own test data. -/
theorem filter_and_sort_keeps_matches_witness :
    (("petclinic" : String) ≠ "" ∧
      (filter_and_sort_projects "petclinic"
        [{ path := "~/Documents/spring-petclinic", name := "spring-petclinic",
           abbreviation := "sp" },
         { path := "~/Desktop/trash/My Project (42)", name := "My Project (42)",
           abbreviation := "MP(" }]).Perm
        ([{ path := "~/Documents/spring-petclinic", name := "spring-petclinic",
            abbreviation := "sp" },
          { path := "~/Desktop/trash/My Project (42)", name := "My Project (42)",
            abbreviation := "MP(" }].filter (fun p =>
          strContains (strLower p.path) "petclinic" ||
            strContains (strLower p.abbreviation) "petclinic" ||
            strContains (strLower p.name) "petclinic"))) :=
  ⟨by decide,
    (filter_and_sort_keeps_matches "petclinic"
      [{ path := "~/Documents/spring-petclinic", name := "spring-petclinic",
         abbreviation := "sp" },
       { path := "~/Desktop/trash/My Project (42)", name := "My Project (42)",
         abbreviation := "MP(" }]).2 (by decide)⟩

theorem orderedInsertKey_front {key : α → Nat} {x : α} {l : List α}
    (h : ∀ y ∈ l, key x ≤ key y) : orderedInsertKey key x l = x :: l := by
  cases l with
  | nil => rfl
  | cons y ys => rw [orderedInsertKey, if_pos (h y (List.mem_cons_self y ys))]

theorem orderedInsertKey_append (p : List α) {key : α → Nat} {x : α} {s : List α}
    (h : ∀ y ∈ p, ¬ key x ≤ key y) :
    orderedInsertKey key x (p ++ s) = p ++ orderedInsertKey key x s := by
  induction p with
  | nil => rfl
  | cons z p ih =>
    rw [List.cons_append, orderedInsertKey, if_neg (h z (List.mem_cons_self z p)),
      ih (fun y hy => h y (List.mem_cons_of_mem z hy)), List.cons_append]

theorem sortByKey_buckets (key : α → Nat) (l : List α) (hb : ∀ a ∈ l, key a ≤ 2) :
    sortByKey key l =
      l.filter (fun a => key a == 0) ++
        (l.filter (fun a => key a == 1) ++ l.filter (fun a => key a == 2)) := by
  induction l with
  | nil => rfl
  | cons x l ih =>
    have hb' : ∀ a ∈ l, key a ≤ 2 := fun a ha => hb a (List.mem_cons_of_mem x ha)
    have key0 : ∀ y ∈ l.filter (fun a => key a == 0), key y = 0 := fun y hy => by
      simpa using (List.mem_filter.mp hy).2
    have key1 : ∀ y ∈ l.filter (fun a => key a == 1), key y = 1 := fun y hy => by
      simpa using (List.mem_filter.mp hy).2
    have key2 : ∀ y ∈ l.filter (fun a => key a == 2), key y = 2 := fun y hy => by
      simpa using (List.mem_filter.mp hy).2
    rw [sortByKey, ih hb']
    have hx2 : key x ≤ 2 := hb x (List.mem_cons_self x l)
    match hk : key x with
    | 0 =>
      rw [orderedInsertKey_front]
      · rw [List.filter_cons_of_pos (by simp [hk]),
          List.filter_cons_of_neg (by simp [hk]),
          List.filter_cons_of_neg (by simp [hk]), List.cons_append]
      · intro y _
        rw [hk]
        exact Nat.zero_le _
    | 1 =>
      rw [orderedInsertKey_append (l.filter (fun a => key a == 0)),
        orderedInsertKey_front]
      · rw [List.filter_cons_of_neg (by simp [hk]),
          List.filter_cons_of_pos (by simp [hk]),
          List.filter_cons_of_neg (by simp [hk]), List.cons_append]
      · intro y hy
        rw [hk]
        rcases List.mem_append.mp hy with h1 | h2
        · rw [key1 y h1]
        · rw [key2 y h2]
          exact Nat.one_le_iff_ne_zero.mpr (by simp)
      · intro y hy
        rw [hk, key0 y hy]
        simp
    | 2 =>
      rw [orderedInsertKey_append (l.filter (fun a => key a == 0)),
        orderedInsertKey_append (l.filter (fun a => key a == 1)),
        orderedInsertKey_front]
      · rw [List.filter_cons_of_neg (by simp [hk]),
          List.filter_cons_of_neg (by simp [hk]),
          List.filter_cons_of_pos (by simp [hk])]
      · intro y hy
        rw [hk, key2 y hy]
      · intro y hy
        rw [hk, key1 y hy]
        simp
      · intro y hy
        rw [hk, key0 y hy]
        simp
    | n + 3 =>
      rw [hk] at hx2
      omega

/-- Claim C5: For every non-empty query, `filter_and_sort_projects` returns
the surviving records bucketed by `sort_on_match_type` rank — all rank-0
records (exact case-sensitive abbreviation match) first, then all rank-1
(case-sensitive substring of the name), then all rank-2 — with each bucket
in input order (`List.filter` preserves order), which is exactly a stable
sort by the rank key; the output is also pairwise ordered by rank, and the
rank key is spelled out in the last conjunct. -/
theorem filter_and_sort_buckets (q : String) (ps : List Project) (h : q ≠ "") :
    (filter_and_sort_projects q ps =
      (ps.filter (fun p => p.matches_query q)).filter
          (fun p => p.sort_on_match_type q == 0) ++
        ((ps.filter (fun p => p.matches_query q)).filter
            (fun p => p.sort_on_match_type q == 1) ++
          (ps.filter (fun p => p.matches_query q)).filter
            (fun p => p.sort_on_match_type q == 2))) ∧
    (filter_and_sort_projects q ps).Pairwise
      (fun a b => a.sort_on_match_type q ≤ b.sort_on_match_type q) ∧
    (∀ p : Project, p.sort_on_match_type q =
      if q = p.abbreviation then 0 else if strContains p.name q then 1 else 2) := by
  have hrank : ∀ p : Project, p.sort_on_match_type q ≤ 2 := by
    intro p
    rw [Project.sort_on_match_type]
    split
    · omega
    · split <;> omega
  have hfs : filter_and_sort_projects q ps =
      sortByKey (fun p => p.sort_on_match_type q)
        (ps.filter (fun p => p.matches_query q)) := by
    rw [filter_and_sort_projects,
      if_neg (fun hlt => h (string_eq_empty_of_length_lt_one hlt))]
  have hbuckets := sortByKey_buckets (fun p : Project => p.sort_on_match_type q)
    (ps.filter (fun p => p.matches_query q)) (fun a _ => hrank a)
  refine ⟨by rw [hfs, hbuckets], ?_, fun p => rfl⟩
  rw [hfs, hbuckets]
  have mem0 : ∀ y ∈ (ps.filter (fun p => p.matches_query q)).filter
      (fun p => p.sort_on_match_type q == 0), y.sort_on_match_type q = 0 :=
    fun y hy => by simpa using (List.mem_filter.mp hy).2
  have mem1 : ∀ y ∈ (ps.filter (fun p => p.matches_query q)).filter
      (fun p => p.sort_on_match_type q == 1), y.sort_on_match_type q = 1 :=
    fun y hy => by simpa using (List.mem_filter.mp hy).2
  have mem2 : ∀ y ∈ (ps.filter (fun p => p.matches_query q)).filter
      (fun p => p.sort_on_match_type q == 2), y.sort_on_match_type q = 2 :=
    fun y hy => by simpa using (List.mem_filter.mp hy).2
  rw [List.pairwise_append]
  refine ⟨List.pairwise_of_forall_mem_list (fun a ha b hb => by
      rw [mem0 a ha, mem0 b hb]), ?_, ?_⟩
  · rw [List.pairwise_append]
    refine ⟨List.pairwise_of_forall_mem_list (fun a ha b hb => by
        rw [mem1 a ha, mem1 b hb]),
      List.pairwise_of_forall_mem_list (fun a ha b hb => by
        rw [mem2 a ha, mem2 b hb]), ?_⟩
    intro a ha b hb
    rw [mem1 a ha, mem2 b hb]
    omega
  · intro a ha b hb
    rcases List.mem_append.mp hb with h1 | h2
    · rw [mem0 a ha, mem1 b h1]
      omega
    · rw [mem0 a ha, mem2 b h2]
      omega

/-- Witness for C5, at the spec's ranking example: for the query `"sp"`,
the record with abbreviation `"sp"` (rank 0) sorts before a record that
matches only as a substring of its name (rank 1), although it comes second
in the input. -/
theorem filter_and_sort_buckets_witness :
    (("sp" : String) ≠ "" ∧
      (filter_and_sort_projects "sp"
          [{ path := "~/w/wasp-tools", name := "wasp-tools", abbreviation := "wt" },
           { path := "~/Documents/spring-petclinic", name := "spring-petclinic",
             abbreviation := "sp" }]).Pairwise
        (fun a b => a.sort_on_match_type "sp" ≤ b.sort_on_match_type "sp")) ∧
    filter_and_sort_projects "sp"
        [{ path := "~/w/wasp-tools", name := "wasp-tools", abbreviation := "wt" },
         { path := "~/Documents/spring-petclinic", name := "spring-petclinic",
           abbreviation := "sp" }] =
      [{ path := "~/Documents/spring-petclinic", name := "spring-petclinic",
         abbreviation := "sp" },
       { path := "~/w/wasp-tools", name := "wasp-tools", abbreviation := "wt" }] :=
  ⟨⟨by decide,
    (filter_and_sort_buckets "sp"
      [{ path := "~/w/wasp-tools", name := "wasp-tools", abbreviation := "wt" },
       { path := "~/Documents/spring-petclinic", name := "spring-petclinic",
         abbreviation := "sp" }] (by decide)).2.1⟩,
    by decide⟩

/-- Claim C7: `is_process_running` is `true` exactly when the `pgrep` query
exits 0 (a case-insensitive match was found); a no-match result (exit 1)
gives `false`, and every other query error (`pgrep` exits 2 or 3, both
raised as `CalledProcessError` by `check_output`) also gives `false`: the
gate fails closed to "not running" and is total, so no query error surfaces
as a crash or as "running". -/
theorem is_process_running_fails_closed (r : PgrepResult) :
    (r.exitCode = 0 → is_process_running r = true) ∧
    (r.exitCode = 1 → is_process_running r = false) ∧
    (2 ≤ r.exitCode → is_process_running r = false) := by
  refine ⟨fun h0 => ?_, fun h1 => ?_, fun h2 => ?_⟩
  · rw [is_process_running, check_output, if_pos h0]
  · rw [is_process_running, check_output, if_neg (by omega)]
  · rw [is_process_running, check_output, if_neg (by omega)]

/-- Witness for C7: a `pgrep` failure status (exit 2, a query error other
than "no match found") yields "not running". -/
theorem is_process_running_fails_closed_witness :
    2 ≤ (2 : Nat) ∧ is_process_running { exitCode := 2, output := "" } = false :=
  ⟨by decide,
    (is_process_running_fails_closed { exitCode := 2, output := "" }).2.2 (by decide)⟩

theorem listStrLt_trans {a b c : List Char} (hab : listStrLt a b = true)
    (hbc : listStrLt b c = true) : listStrLt a c = true := by
  induction a generalizing b c with
  | nil =>
    cases c with
    | nil =>
      cases b with
      | nil => simp [listStrLt] at hab
      | cons y ys => simp [listStrLt] at hbc
    | cons z zs => rw [listStrLt]
  | cons x xs ih =>
    cases b with
    | nil => simp [listStrLt] at hab
    | cons y ys =>
      cases c with
      | nil => simp [listStrLt] at hbc
      | cons z zs =>
        rw [listStrLt] at hab hbc ⊢
        split_ifs at hab hbc ⊢ <;>
          first
            | rfl
            | omega
            | simp at hab
            | simp at hbc
            | exact ih hab hbc

theorem listStrLt_total {a b : List Char} (h : listStrLt a b = false) :
    a = b ∨ listStrLt b a = true := by
  induction a generalizing b with
  | nil =>
    cases b with
    | nil => exact Or.inl rfl
    | cons y ys => simp [listStrLt] at h
  | cons x xs ih =>
    cases b with
    | nil => exact Or.inr rfl
    | cons y ys =>
      rw [listStrLt] at h
      rw [listStrLt]
      split_ifs at h ⊢ <;>
        first
          | exact Or.inr rfl
          | simp at h
          | omega
          | (rcases ih h with heq | hlt
             · refine Or.inl ?_
               have hn : x.toNat = y.toNat := by omega
               rw [Char.ext (UInt32.ext hn), heq]
             · exact Or.inr hlt)

/-- Relation: `a` is at or below `b` in Python's string order. -/
def PyLe (a b : String) : Prop := a = b ∨ pyLt a b = true

theorem pyLe_trans {a b c : String} (hab : PyLe a b) (hbc : PyLe b c) : PyLe a c := by
  rcases hab with rfl | hab
  · exact hbc
  · rcases hbc with rfl | hbc
    · exact Or.inr hab
    · exact Or.inr (listStrLt_trans hab hbc)

theorem pyLe_of_not_lt {a b : String} (h : pyLt a b = false) : PyLe b a := by
  rcases listStrLt_total h with heq | hlt
  · exact Or.inl (String.ext heq.symm)
  · exact Or.inr hlt

theorem pyMax_foldl_spec :
    ∀ (xs : List String) (acc : String),
      ((xs.foldl (fun acc y => if pyLt acc y then y else acc) acc) = acc ∨
        (xs.foldl (fun acc y => if pyLt acc y then y else acc) acc) ∈ xs) ∧
      PyLe acc (xs.foldl (fun acc y => if pyLt acc y then y else acc) acc) ∧
      ∀ y ∈ xs, PyLe y (xs.foldl (fun acc y => if pyLt acc y then y else acc) acc) := by
  intro xs
  induction xs with
  | nil => exact fun acc => ⟨Or.inl rfl, Or.inl rfl, by simp⟩
  | cons y ys ih =>
    intro acc
    obtain ⟨hmem, hacc, hall⟩ := ih (if pyLt acc y then y else acc)
    have hstep : PyLe acc (if pyLt acc y then y else acc) ∧
        PyLe y (if pyLt acc y then y else acc) := by
      by_cases hlt : pyLt acc y = true
      · rw [if_pos hlt]
        exact ⟨Or.inr hlt, Or.inl rfl⟩
      · rw [if_neg hlt]
        exact ⟨Or.inl rfl, pyLe_of_not_lt (Bool.not_eq_true _ ▸ hlt)⟩
    refine ⟨?_, ?_, ?_⟩
    · rw [List.foldl_cons]
      rcases hmem with h | h
      · rw [h]
        by_cases hlt : pyLt acc y = true
        · rw [if_pos hlt]
          exact Or.inr (List.mem_cons_self y ys)
        · rw [if_neg hlt]
          exact Or.inl rfl
      · exact Or.inr (List.mem_cons_of_mem y h)
    · exact pyLe_trans hstep.1 hacc
    · intro z hz
      rcases List.mem_cons.mp hz with h | h
      · rw [h]
        exact pyLe_trans hstep.2 hacc
      · exact hall z h

theorem pyMax_spec {l : List String} {m : String} (h : pyMax l = some m) :
    m ∈ l ∧ ∀ y ∈ l, PyLe y m := by
  match l with
  | [] => exact absurd h (by rw [pyMax]; simp)
  | x :: xs =>
    rw [pyMax, Option.some.injEq] at h
    obtain ⟨hmem, hacc, hall⟩ := pyMax_foldl_spec xs x
    subst h
    constructor
    · rcases hmem with h | h
      · rw [h]
        exact List.mem_cons_self x xs
      · exact List.mem_cons_of_mem x h
    · intro y hy
      rcases List.mem_cons.mp hy with h | h
      · rw [h]
        exact hacc
      · exact hall y h

/-- Claim C8: Whenever the history-file locator produces a path, there is a
selected folder that (a) is one of the supplied immediate subdirectories,
(b) contains the product's `folder_name` token, (c) does not contain the
substring `"backup"` (both case-sensitive substring checks), (d) is
lexicographically greatest among all such subdirectories, and (e) the
produced path is `<root><selected>/options/recentProjects.xml` under the
home-expanded root the locator was given. -/
theorem find_recentprojects_file_spec (preferences_path : String)
    (subdirs : List String) (app : Product) (p : String)
    (h : find_recentprojects_file preferences_path subdirs app = some p) :
    ∃ sel ∈ subdirs, strContains sel app.folder_name = true ∧
      strContains sel "backup" = false ∧
      (∀ d ∈ subdirs, strContains d app.folder_name = true →
        strContains d "backup" = false → PyLe d sel) ∧
      p = preferences_path ++ sel ++ "/options/" ++ "recentProjects" ++ ".xml" := by
  rw [find_recentprojects_file] at h
  obtain ⟨m, hm, hp⟩ := Option.map_eq_some'.mp h
  obtain ⟨hmem, hall⟩ := pyMax_spec hm
  obtain ⟨hin, hpred⟩ := List.mem_filter.mp hmem
  rw [Bool.and_eq_true, Bool.not_eq_true'] at hpred
  refine ⟨m, hin, hpred.1, hpred.2, ?_, hp.symm⟩
  intro d hd htok hback
  exact hall d (List.mem_filter.mpr ⟨hd, by
    rw [Bool.and_eq_true, Bool.not_eq_true', should_ignore_folder]
    exact ⟨htok, hback⟩⟩)

/-- Witness for C8, at the spec's folder-selection example: from
`["X2020.1", "X2020.2", "X2020.2-backup"]` with token `"X"` the locator
selects `"X2020.2"` (backup excluded, lexicographic max of the rest). -/
theorem find_recentprojects_file_spec_witness :
    find_recentprojects_file "/prefs/" ["X2020.1", "X2020.2", "X2020.2-backup"]
        { keyword := "x", uid := "u", folder_name := "X", bundle_id := "b",
          display_name := none, preferences_path := "~/p" } =
      some "/prefs/X2020.2/options/recentProjects.xml" ∧
    (∃ sel ∈ ["X2020.1", "X2020.2", "X2020.2-backup"],
      strContains sel "X" = true ∧ strContains sel "backup" = false ∧
      (∀ d ∈ ["X2020.1", "X2020.2", "X2020.2-backup"], strContains d "X" = true →
        strContains d "backup" = false → PyLe d sel) ∧
      "/prefs/X2020.2/options/recentProjects.xml" =
        "/prefs/" ++ sel ++ "/options/" ++ "recentProjects" ++ ".xml") :=
  ⟨by decide,
    find_recentprojects_file_spec "/prefs/" ["X2020.1", "X2020.2", "X2020.2-backup"]
      { keyword := "x", uid := "u", folder_name := "X", bundle_id := "b",
        display_name := none, preferences_path := "~/p" }
      "/prefs/X2020.2/options/recentProjects.xml" (by decide)⟩

theorem descendantsList_map_mkEntry (keys : List String) :
    descendantsList (keys.map mkEntry) = keys.map mkEntry := by
  induction keys with
  | nil => rfl
  | cons k ks ih =>
    rw [List.map_cons, descendantsList]
    rw [show Xml.descendants (mkEntry k) = [] from rfl, ih]
    rfl

theorem findEntries_mkHistoryDoc (keys : List String) :
    findEntries (mkHistoryDoc keys) = keys.map mkEntry := by
  have hentry : ∀ (p : Xml → Bool), (∀ k, p (mkEntry k) = false) →
      (keys.map mkEntry).filter p = [] := by
    intro p hp
    rw [List.filter_eq_nil_iff]
    intro a ha
    obtain ⟨k, _, rfl⟩ := List.mem_map.mp ha
    simp [hp k]
  rw [findEntries, mkHistoryDoc]
  rw [show Xml.descendants (Xml.elem "application" []
    [Xml.elem "component" [("name", "RecentProjectsManager")]
      [Xml.elem "option" [("name", "additionalInfo")]
        [Xml.elem "map" [] (keys.map mkEntry)]]]) =
    Xml.elem "component" [("name", "RecentProjectsManager")]
      [Xml.elem "option" [("name", "additionalInfo")]
        [Xml.elem "map" [] (keys.map mkEntry)]] ::
    (Xml.elem "option" [("name", "additionalInfo")]
        [Xml.elem "map" [] (keys.map mkEntry)] ::
      (Xml.elem "map" [] (keys.map mkEntry) ::
        descendantsList (keys.map mkEntry))) from by
      simp [Xml.descendants, descendantsList]]
  rw [descendantsList_map_mkEntry]
  rw [List.filter_cons_of_pos (by simp [Xml.tag, Xml.attr, Xml.attrs]),
    List.filter_cons_of_neg (by simp [Xml.tag, Xml.attr, Xml.attrs]),
    List.filter_cons_of_neg (by simp [Xml.tag, Xml.attr, Xml.attrs]),
    hentry _ (fun k => by simp [mkEntry, Xml.tag, Xml.attr, Xml.attrs])]
  simp [Xml.children, Xml.tag, Xml.attr, Xml.attrs, mkEntry, List.filter_eq_self]

theorem mapM_attr_key_map_mkEntry (keys : List String) :
    (keys.map mkEntry).mapM (fun (t : Xml) => t.attr "key") = some keys := by
  induction keys with
  | nil => rfl
  | cons k ks ih =>
    rw [List.map_cons, List.mapM_cons, ih]
    rfl

/-- Claim C9: For every list of stored entry keys, reading the well-formed
history document holding exactly those entries (oldest first) yields the
keys with every `$USER_HOME$` occurrence replaced by `~`, in reverse file
order; in particular stored entries `["A", "B"]` produce `["B", "A"]`, and
the repository's placeholder example is rewritten to a `~`-path. -/
theorem read_projects_reverses_and_rewrites :
    (∀ keys : List String, read_projects_from_file (mkHistoryDoc keys) =
      some ((keys.map replaceUserHome).reverse)) ∧
    read_projects_from_file (mkHistoryDoc ["A", "B"]) = some ["B", "A"] ∧
    read_projects_from_file (mkHistoryDoc ["$USER_HOME$/Desktop/trash/My Project (42)"]) =
      some ["~/Desktop/trash/My Project (42)"] := by
  refine ⟨fun keys => ?_, by decide, by decide⟩
  rw [read_projects_from_file, findEntries_mkHistoryDoc, mapM_attr_key_map_mkEntry]
  rfl

/-- Claim C1 counterexample: under `envOne` the gate reports the product not
running (first conjunct), yet the emitted project item's only secondary
action is the always-disabled `alt` mod labelled "Press ⇥ (tab) to manage
item" — there is no `remove` secondary action, and its valid flag is
`false` although the process is not running, contradicting the claimed
"valid exactly when not running". -/
theorem list_remove_mod_counterexample :
    is_process_running envOne.pgrep = false ∧
    list_options_in_alfred envOne appGo "" = .ok
      { vars := some [("app_keyword", PyVal.str "goland")]
        items := [{ title := "proj", subtitle := "~/proj", arg := "~/proj", type := "file",
                    autocomplete := "|~/proj|", valid := true, vars := none,
                    mods := [("alt", { arg := "", subtitle := "Press ⇥ (tab) to manage item",
                                       valid := false })] }] } :=
  ⟨rfl, by rfl⟩

/-- Claim C1 (amended): on the ordinary listing path every emitted project
item carries exactly one secondary action, keyed `alt`, which is *always*
disabled (`valid = false`) and labelled "Press ⇥ (tab) to manage item",
independent of what ProcessGate would report (`env.pgrep` is unconstrained
here and the listing path never consults it); the gate-dependent remove
option lives in the `manage_entry` submenu instead. -/
theorem list_secondary_action_always_disabled (env : Env) (app : Product)
    (query : String) (projects : List Project) (out : AlfredOutput)
    (hp : get_projects env app = .ok projects)
    (hq : firstPipeToken query.toList = none)
    (h : list_options_in_alfred env app query = .ok out) :
    out.items = (filter_and_sort_projects query projects).map (fun p =>
      (AlfredItem.init p.name p.path p.path true none none "file").add_mod "alt"
        { arg := "", subtitle := "Press ⇥ (tab) to manage item", valid := false }) ∧
    ∀ it ∈ out.items, it.mods =
      [("alt", { arg := "", subtitle := "Press ⇥ (tab) to manage item", valid := false })] := by
  simp only [list_options_in_alfred, hp, hq] at h
  have hout := (Except.ok.inj h).symm
  subst hout
  refine ⟨rfl, ?_⟩
  intro it hit
  obtain ⟨p, _, rfl⟩ := List.mem_map.mp hit
  rfl

/-- Witness for C1 (amended), at `envOne` with the empty query. -/
theorem list_secondary_action_always_disabled_witness :
    (get_projects envOne appGo = .ok [projOne] ∧
      firstPipeToken ("" : String).toList = none) ∧
    ∀ it ∈ ({ vars := some [("app_keyword", PyVal.str "goland")]
              items := [{ title := "proj", subtitle := "~/proj", arg := "~/proj",
                          type := "file", autocomplete := "|~/proj|", valid := true,
                          vars := none,
                          mods := [("alt", { arg := "",
                                             subtitle := "Press ⇥ (tab) to manage item",
                                             valid := false })] }] } : AlfredOutput).items,
      it.mods =
        [("alt", { arg := "", subtitle := "Press ⇥ (tab) to manage item", valid := false })] :=
  ⟨⟨by rfl, rfl⟩,
    (list_secondary_action_always_disabled envOne appGo "" [projOne]
      { vars := some [("app_keyword", PyVal.str "goland")]
        items := [{ title := "proj", subtitle := "~/proj", arg := "~/proj",
                    type := "file", autocomplete := "|~/proj|", valid := true,
                    vars := none,
                    mods := [("alt", { arg := "",
                                       subtitle := "Press ⇥ (tab) to manage item",
                                       valid := false })] }] }
      (by rfl) rfl (by rfl)).2⟩

/-- Claim C2 counterexample: with zero matching preference folders the
emitted single placeholder item has `valid = true` (the `AlfredItem`
constructor default) — it is *enabled*, not disabled as the claim states. -/
theorem placeholder_item_enabled_counterexample :
    find_preferences_folders envNone.subdirs appGo = [] ∧
    list_options_in_alfred envNone appGo "" = .ok
      { vars := some [("app_keyword", PyVal.str "goland")]
        items := [{ title := "Open goland",
                    subtitle := "This is a backup option since no preferences were found for goland",
                    arg := "", type := "file", autocomplete := "", valid := true,
                    vars := none, mods := [] }] } :=
  ⟨rfl, rfl⟩

/-- Claim C2 (amended): on a HistorySource NotFound (zero matching folders)
or FileNotFound (resolved history path absent) failure, `list` does not
propagate the error: it returns a result document with a single placeholder
item — *enabled* (`valid = true`), not disabled — explaining that no
history was found, and the two failure kinds carry distinct messages
(third conjunct). -/
theorem list_recovers_history_failures (env : Env) (app : Product) (query : String) :
    (find_preferences_folders env.subdirs app = [] →
      list_options_in_alfred env app query = .ok
        { vars := some [("app_keyword", PyVal.str app.keyword)]
          items := [AlfredItem.init ("Open " ++ app.keyword)
            ("This is a backup option since no preferences were found for " ++ app.keyword)
            "" true none (some "") "file"] }) ∧
    (∀ path, find_recentprojects_file (env.expand app.preferences_path) env.subdirs app =
        some path →
      env.file path = FileResult.missing →
      list_options_in_alfred env app query = .ok
        { vars := some [("app_keyword", PyVal.str app.keyword)]
          items := [AlfredItem.init ("Open " ++ app.keyword)
            ("This is a backup option since the projects file was not found for " ++ app.keyword)
            "" true none (some "") "file"] }) ∧
    ("This is a backup option since no preferences were found for " ++ app.keyword ≠
      "This is a backup option since the projects file was not found for " ++ app.keyword) := by
  refine ⟨fun hempty => ?_, fun path hpath hmiss => ?_, fun hcontra => ?_⟩
  · have hfind : find_recentprojects_file (env.expand app.preferences_path)
        env.subdirs app = none := by
      rw [find_recentprojects_file, hempty]
      rfl
    have hget : get_projects env app = Except.error PyErr.valueError := by
      simp only [get_projects, hfind]
    simp only [list_options_in_alfred, hget]
  · have hget : get_projects env app = Except.error PyErr.fileNotFound := by
      simp only [get_projects, hpath, hmiss]
    simp only [list_options_in_alfred, hget]
  · have hdata := congrArg String.data hcontra
    simp only [String.data_append] at hdata
    have := List.append_cancel_right hdata
    exact absurd this (by decide)

/-- Witness for C2 (amended), exercising the FileNotFound branch at
`envMissing`. -/
theorem list_recovers_history_failures_witness :
    (find_recentprojects_file (envMissing.expand appGo.preferences_path)
        envMissing.subdirs appGo = some "GoLand2020.2/options/recentProjects.xml" ∧
      envMissing.file "GoLand2020.2/options/recentProjects.xml" = FileResult.missing) ∧
    list_options_in_alfred envMissing appGo "x" = .ok
      { vars := some [("app_keyword", PyVal.str appGo.keyword)]
        items := [AlfredItem.init ("Open " ++ appGo.keyword)
          ("This is a backup option since the projects file was not found for " ++ appGo.keyword)
          "" true none (some "") "file"] } :=
  ⟨⟨rfl, rfl⟩,
    (list_recovers_history_failures envMissing appGo "x").2.1
      "GoLand2020.2/options/recentProjects.xml" rfl rfl⟩

/-- Claim C4 (supporting the code-bug verdict): `remove_project` only echoes
the target path and terminates with status 0; in particular it exits 0 even
when ProcessGate reports the process running, never consults the gate and
never touches the history store — against the claimed gate-then-remove
behaviour (the body is an unimplemented TODO in the source). -/
theorem remove_project_ignores_gate (env : Env) (app_keyword file : String) :
    remove_project app_keyword file = (file, 0) ∧
    (is_process_running env.pgrep = true → (remove_project app_keyword file).2 = 0) :=
  ⟨rfl, fun _ => rfl⟩

/-- Witness for C4: with `pgrep` reporting a match (the product *is*
running), `remove goland ~/proj` still exits 0. -/
theorem remove_project_ignores_gate_witness :
    is_process_running { exitCode := 0, output := "740" } = true ∧
    (remove_project "goland" "~/proj").2 = 0 :=
  ⟨rfl,
    (remove_project_ignores_gate
      { expand := fun s => s, subdirs := [], file := fun _ => .missing,
        nameFile := fun _ => none, pgrep := { exitCode := 0, output := "740" } }
      "goland" "~/proj").2 rfl⟩

/-- Claim C10: When the query contains a pipe-delimited token (`t` being the
first group Python's `re.findall(r'\x7c(.+?)\x7c', query)` yields), `list`
bypasses filtering and ranking: if some loaded project's path equals `t`
(and it is the unique such project), the output is exactly the
`manage_entry` submenu for it; if no loaded project's path equals `t`, the
`[0]` index fails (uncaught `IndexError`) and no result document is
produced at all.  The last conjunct records what creates such queries:
an ordinary list item's default autocomplete is its subtitle (the project
path) wrapped in pipe characters. -/
theorem pipe_token_dispatches_manage (env : Env) (app : Product) (query : String)
    (projects : List Project) (t : List Char)
    (hp : get_projects env app = .ok projects)
    (ht : firstPipeToken query.toList = some t) :
    ((∀ p ∈ projects, p.path ≠ String.mk t) →
      list_options_in_alfred env app query = .error .other) ∧
    (∀ p ∈ projects, p.path = String.mk t →
      (∀ q ∈ projects, q.path = String.mk t → q = p) →
      list_options_in_alfred env app query = .ok (manage_entry env p app)) ∧
    (∀ p : Project, (AlfredItem.init p.name p.path p.path true none none "file").autocomplete =
      "|" ++ p.path ++ "|") := by
  refine ⟨fun hnone => ?_, fun p hmem hpath huniq => ?_, fun p => rfl⟩
  · have hfilter : projects.filter (fun p => p.path = String.mk t) = [] := by
      rw [List.filter_eq_nil_iff]
      intro a ha
      simp only [decide_eq_true_eq]
      exact hnone a ha
    simp only [list_options_in_alfred, hp, ht, hfilter]
  · match hf : projects.filter (fun p => p.path = String.mk t) with
    | [] =>
      have : p ∈ projects.filter (fun p => p.path = String.mk t) :=
        List.mem_filter.mpr ⟨hmem, by simp [hpath]⟩
      rw [hf] at this
      exact absurd this (List.not_mem_nil p)
    | q :: rest =>
      have hq : q ∈ projects.filter (fun p => p.path = String.mk t) := by
        rw [hf]
        exact List.mem_cons_self q rest
      obtain ⟨hqmem, hqpath⟩ := List.mem_filter.mp hq
      have hqp : q = p := huniq q hqmem (by simpa using hqpath)
      simp only [list_options_in_alfred, hp, ht, hf, hqp]

/-- Witness for C10, at `envOne` with the query `"|~/proj|"` produced by
tabbing an ordinary item: the output is the management submenu for the
unique project at `~/proj`. -/
theorem pipe_token_dispatches_manage_witness :
    (get_projects envOne appGo = .ok [projOne] ∧
      firstPipeToken ("|~/proj|" : String).toList = some ("~/proj" : String).toList ∧
      projOne ∈ [projOne] ∧ projOne.path = String.mk ("~/proj" : String).toList ∧
      (∀ q ∈ [projOne], q.path = String.mk ("~/proj" : String).toList → q = projOne)) ∧
    list_options_in_alfred envOne appGo "|~/proj|" = .ok (manage_entry envOne projOne appGo) :=
  ⟨⟨by rfl, rfl, by decide, rfl, by decide⟩,
    (pipe_token_dispatches_manage envOne appGo "|~/proj|" [projOne]
      ("~/proj" : String).toList (by rfl) rfl).2.1 projOne (by decide) rfl (by decide)⟩

end RecentProjects
